import Mathlib

/-!
Verification development for the `rdbg` tracee-control core.

The Rust sources embedded here are `src/debugger.rs` (trace-event
dispatcher) and `src/debug_info.rs` (debug-info aggregator).  Machine
integers (`u64`) are modelled as `Nat` with explicit wrap-around
(`% 2 ^ 64`) at the operations where the Rust code can overflow or
underflow.  Effectful handlers are embedded as pure functions that
return a description of the logging, state update and tracee-resume
request they perform; a Rust `panic!`/`unwrap` failure is modelled as
`Option.none`.  The `syscall` module (the syscall stack primitives) is
not part of the sources at hand; its operations are modelled from the
specification, each marked `Modelled from the spec:` in its doc comment.
-/

/-- Modulus of the 64-bit unsigned integers the Rust code computes with. -/
def U64_MOD : Nat := 2 ^ 64

/-- Wrapping `u64` subtraction `a - b` on values `a, b < U64_MOD`,
as performed by release-mode Rust when the subtraction underflows. -/
def u64_sub (a b : Nat) : Nat := (a + U64_MOD - b) % U64_MOD

/-- Embedding of `FunctionInfo` from `src/debug_info.rs`: one text symbol,
its name and link-time offset. -/
structure FunctionInfo where
  name : String
  offset : Nat
deriving DecidableEq, Repr

/-- Embedding of `VariableInfo` from `src/debug_info.rs`: one data symbol,
its name and link-time offset. -/
structure VariableInfo where
  name : String
  offset : Nat
deriving DecidableEq, Repr

/-- Embedding of `proc_maps::MapRange` as used by `src/debug_info.rs`: one memory
mapping with start address, size, file offset and permission flags. -/
structure MapRange where
  start : Nat
  size : Nat
  offset : Nat
  is_read : Bool
  is_write : Bool
  is_exec : Bool
deriving DecidableEq, Repr

/-- The base-address delta `map.start() - base_addr` computed (unguarded,
in `u64` arithmetic) at the start of `VariableInfo::is_included`
(`src/debug_info.rs:37`). -/
def base_diff_of (map : MapRange) (base_addr : Nat) : Nat :=
  u64_sub map.start base_addr

/-- Embedding of `VariableInfo::is_included` from `src/debug_info.rs:32-44`: translate
the symbol's link-time offset by the mapping's base delta (only when the
offset exceeds the delta) and test membership in the mapping's
file-offset range. -/
def VariableInfo.is_included (v : VariableInfo) (map : MapRange) (base_addr : Nat) : Bool :=
  let map_offset := map.offset
  let map_size := map.size
  let base_diff := base_diff_of map base_addr
  let var_offset := if base_diff < v.offset then u64_sub v.offset base_diff else v.offset
  decide (map_offset ≤ var_offset) && decide (var_offset < (map_offset + map_size) % U64_MOD)

/-- Embedding of `object::SymbolKind` restricted to the cases `src/debug_info.rs`
distinguishes: text symbols, data symbols, anything else. -/
inductive SymbolKind where
  | Text
  | Data
  | Other
deriving DecidableEq, Repr

/-- One symbol of the parsed object file, as consumed by
`TdbDebugInfo::get_elf_fn_info` / `get_elf_var_info`.  `name = none`
models `sym.name()` returning an error (an unreadable name). -/
structure ElfSymbol where
  kind : SymbolKind
  name : Option String
  address : Nat
deriving DecidableEq, Repr

/-- Embedding of `TdbDebugInfo::get_elf_fn_info` from `src/debug_info.rs:96-105`:
collect every text symbol into a `FunctionInfo`, calling
`sym.name().unwrap()` — an unreadable name panics, modelled as `none`. -/
def get_elf_fn_info : List ElfSymbol → Option (List FunctionInfo)
  | [] => some []
  | s :: rest =>
    if s.kind = SymbolKind.Text then
      match s.name with
      | some n => (get_elf_fn_info rest).map (fun l => ⟨n, s.address⟩ :: l)
      | none => none
    else
      get_elf_fn_info rest

/-- Embedding of `TdbDebugInfo::get_elf_var_info` from `src/debug_info.rs:107-116`:
collect every data symbol into a `VariableInfo`, calling
`sym.name().unwrap()` — an unreadable name panics, modelled as `none`. -/
def get_elf_var_info : List ElfSymbol → Option (List VariableInfo)
  | [] => some []
  | s :: rest =>
    if s.kind = SymbolKind.Data then
      match s.name with
      | some n => (get_elf_var_info rest).map (fun l => ⟨n, s.address⟩ :: l)
      | none => none
    else
      get_elf_var_info rest

/-- Embedding of `TdbDebugInfo` from `src/debug_info.rs:47-53`: the debug-info
snapshot built once at attach time. -/
structure TdbDebugInfo where
  fn_info_vec : List FunctionInfo
  var_info_vec : List VariableInfo
  mmap_info_vec : List MapRange
  base_addr : Nat
deriving DecidableEq, Repr

/-- The base-address loop of `TdbDebugInfo::init`
(`src/debug_info.rs:69-74`): starting from the accumulator `b`
(initially `u64::MAX`), replace it by each mapping start that is
strictly smaller. -/
def init_base_addr_loop : List MapRange → Nat → Nat
  | [], b => b
  | m :: rest, b => init_base_addr_loop rest (if m.start < b then m.start else b)

/-- The base address `TdbDebugInfo::init` stores: the loop above run
from `u64::MAX = U64_MOD - 1`. -/
def init_base_addr (maps : List MapRange) : Nat :=
  init_base_addr_loop maps (U64_MOD - 1)

/-- Embedding of `TdbDebugInfo::init` from `src/debug_info.rs:56-85`, parameterised
by its external inputs: the symbol table of the parsed object file and
the mapping list returned by the memory-map prober.  The symbol
extraction's `unwrap` panics propagate as `none`. -/
def TdbDebugInfo.init (syms : List ElfSymbol) (maps : List MapRange) : Option TdbDebugInfo :=
  (get_elf_fn_info syms).bind fun fn_info_vec =>
    (get_elf_var_info syms).bind fun var_info_vec =>
      some ⟨fn_info_vec, var_info_vec, maps, init_base_addr maps⟩

/-- The loop of `TdbDebugInfo::get_breakpoint_offset`
(`src/debug_info.rs:88-92`): scan the function list, returning the
offset of the first entry whose name equals the query. -/
def find_breakpoint_offset : List FunctionInfo → String → Option Nat
  | [], _ => none
  | f :: rest, n => if f.name = n then some f.offset else find_breakpoint_offset rest n

/-- Embedding of `TdbDebugInfo::get_breakpoint_offset` from `src/debug_info.rs:87-94`. -/
def TdbDebugInfo.get_breakpoint_offset (d : TdbDebugInfo) (bp_symbol_name : String) : Option Nat :=
  find_breakpoint_offset d.fn_info_vec bp_symbol_name

/-- The error kind carried by the `io::Error` values the mapping
queries build (`io::ErrorKind::NotFound`). -/
inductive ErrKind where
  | notFound
deriving DecidableEq, Repr

/-- The collecting loop of `TdbDebugInfo::exec_maps`
(`src/debug_info.rs:139-143`): keep mappings readable, non-writable
and executable, preserving order. -/
def collect_exec_maps : List MapRange → List MapRange
  | [] => []
  | m :: rest =>
    if m.is_read && !m.is_write && m.is_exec then m :: collect_exec_maps rest
    else collect_exec_maps rest

/-- The collecting loop of `TdbDebugInfo::data_maps`
(`src/debug_info.rs:157-161`): keep mappings readable, writable and
non-executable, preserving order. -/
def collect_data_maps : List MapRange → List MapRange
  | [] => []
  | m :: rest =>
    if m.is_read && m.is_write && !m.is_exec then m :: collect_data_maps rest
    else collect_data_maps rest

/-- The collecting loop of `TdbDebugInfo::rodata_maps`
(`src/debug_info.rs:174-178`): keep mappings readable, non-writable and
non-executable, preserving order. -/
def collect_rodata_maps : List MapRange → List MapRange
  | [] => []
  | m :: rest =>
    if m.is_read && !m.is_write && !m.is_exec then m :: collect_rodata_maps rest
    else collect_rodata_maps rest

/-- Embedding of `TdbDebugInfo::exec_maps` from `src/debug_info.rs:137-152`: the
collected list if non-empty, otherwise a not-found error. -/
def TdbDebugInfo.exec_maps (d : TdbDebugInfo) : Except (ErrKind × String) (List MapRange) :=
  let l := collect_exec_maps d.mmap_info_vec
  if l ≠ [] then Except.ok l else Except.error (ErrKind.notFound, "exec map not found")

/-- Embedding of `TdbDebugInfo::data_maps` from `src/debug_info.rs:155-170`: the
collected list if non-empty, otherwise a not-found error (whose message
the source copy-pastes from `exec_maps`). -/
def TdbDebugInfo.data_maps (d : TdbDebugInfo) : Except (ErrKind × String) (List MapRange) :=
  let l := collect_data_maps d.mmap_info_vec
  if l ≠ [] then Except.ok l else Except.error (ErrKind.notFound, "exec map not found")

/-- Embedding of `TdbDebugInfo::rodata_maps` from `src/debug_info.rs:172-187`: the
collected list if non-empty, otherwise a not-found error. -/
def TdbDebugInfo.rodata_maps (d : TdbDebugInfo) : Except (ErrKind × String) (List MapRange) :=
  let l := collect_rodata_maps d.mmap_info_vec
  if l ≠ [] then Except.ok l else Except.error (ErrKind.notFound, "rodata map not found")

/-- Modelled from the spec: `SyscallInfo` (data model §3 of the spec;
defined in the repository's `src/syscall.rs`, which is not among the
sources at hand) — one syscall occurrence, carrying the syscall number
and name derived from the tracee's registers. -/
structure SyscallInfo where
  number : Nat
  name : String
deriving DecidableEq, Repr

/-- Modelled from the spec: `push_syscall_stack` of the missing
`src/syscall.rs` — the syscall stack is a LIFO of `SyscallInfo`, so a
push prepends. -/
def push_syscall_stack (info : SyscallInfo) (st : List SyscallInfo) : List SyscallInfo :=
  info :: st

/-- Modelled from the spec: `pop_syscall_stack` of the missing
`src/syscall.rs` — remove and return the most recently pushed entry,
`none` on an empty stack. -/
def pop_syscall_stack : List SyscallInfo → Option (SyscallInfo × List SyscallInfo)
  | [] => none
  | s :: rest => some (s, rest)

/-- Modelled from the spec: `top_syscall_number_in_syscall_stack` of the
missing `src/syscall.rs` — the syscall number of the top entry, if any. -/
def top_syscall_number_in_syscall_stack : List SyscallInfo → Option Nat
  | [] => none
  | s :: _ => some s.number

/-- A tracee-resume request issued through the kernel tracing channel:
`cont` is `ptrace::cont` (free-run until the next event), `syscall` is
`ptrace::syscall` (run until the next syscall-stop).  The optional `Nat`
is the signal delivered on resume. -/
inductive TraceeResume where
  | cont (signal : Option Nat)
  | syscall (signal : Option Nat)
deriving DecidableEq, Repr

/-- The externally visible effect a dispatcher handler requests after
its bookkeeping: resume the tracee, terminate the debugger process with
an exit code, or nothing. -/
inductive Effect where
  | resume (r : TraceeResume)
  | exitProcess (code : Int)
  | noop
deriving DecidableEq, Repr

/-- One log line printed by a handler of `src/debugger.rs`, abstracted
from the concrete `println!` formatting. -/
inductive LogEvent where
  | continuedEv (pid : Nat)
  | exitedEv (pid : Nat) (code : Int)
  | ptraceEventEv (pid : Nat) (signal : Nat) (event : Int)
  | syscallEnter (pid : Nat) (number : Nat) (name : String)
  | syscallExit (name : String)
  | signaledEv (pid : Nat) (signal : Nat)
  | stillAliveEv
  | stoppedEv (pid : Nat) (signal : Nat)
deriving DecidableEq, Repr

/-- What one dispatcher iteration does: the log lines it prints, the
syscall stack it leaves behind, and the effect it requests. -/
structure StopOutcome where
  events : List LogEvent
  stack : List SyscallInfo
  effect : Effect
deriving DecidableEq, Repr

/-- Embedding of `continued` from `src/debugger.rs:63-68`: log, then `ptrace::cont(pid, None)`. -/
def continued (pid : Nat) : List LogEvent × Effect :=
  ([LogEvent.continuedEv pid], Effect.resume (TraceeResume.cont none))

/-- Embedding of `exited` from `src/debugger.rs:70-73`: log, then `exit(exit_code)` —
the debugger terminates with the tracee's exit code. -/
def exited (pid : Nat) (exit_code : Int) : List LogEvent × Effect :=
  ([LogEvent.exitedEv pid exit_code], Effect.exitProcess exit_code)

/-- Embedding of `ptrace_event` from `src/debugger.rs:75-80`: log, then
`ptrace::cont(pid, signal)` delivering the pending signal. -/
def ptrace_event (pid : Nat) (signal : Nat) (event : Int) : List LogEvent × Effect :=
  ([LogEvent.ptraceEventEv pid signal event], Effect.resume (TraceeResume.cont (some signal)))

/-- Embedding of `ptrace_syscall` from `src/debugger.rs:82-113`: classify the
syscall-trace-stop against the syscall stack (empty or different top
number → entry, push; matching top number → exit, pop, panicking —
`none` — if the pop yields nothing), then resume the tracee via
`ptrace::cont(pid, None)`.  Note the source resumes with `ptrace::cont`,
not `ptrace::syscall`, although its panic message reads
"ptrace::syscall failed". -/
def ptrace_syscall (pid : Nat) (syscall_info : SyscallInfo) (st : List SyscallInfo) :
    Option StopOutcome :=
  match top_syscall_number_in_syscall_stack st with
  | some top_number =>
    if top_number ≠ syscall_info.number then
      some ⟨[LogEvent.syscallEnter pid syscall_info.number syscall_info.name],
            push_syscall_stack syscall_info st,
            Effect.resume (TraceeResume.cont none)⟩
    else
      match pop_syscall_stack st with
      | some (s, rest) =>
        some ⟨[LogEvent.syscallExit s.name], rest, Effect.resume (TraceeResume.cont none)⟩
      | none => none
  | none =>
    some ⟨[LogEvent.syscallEnter pid syscall_info.number syscall_info.name],
          push_syscall_stack syscall_info st,
          Effect.resume (TraceeResume.cont none)⟩

/-- Embedding of `signaled` from `src/debugger.rs:115-120`: log, then
`ptrace::cont(pid, signal)`. -/
def signaled (pid : Nat) (signal : Nat) (core_dump : Bool) : List LogEvent × Effect :=
  ([LogEvent.signaledEv pid signal], Effect.resume (TraceeResume.cont (some signal)))

/-- Embedding of `still_alive` from `src/debugger.rs:122-124`: log only. -/
def still_alive : List LogEvent × Effect :=
  ([LogEvent.stillAliveEv], Effect.noop)

/-- Embedding of `stopped` from `src/debugger.rs:126-131`: log, then
`ptrace::cont(pid, signal)`. -/
def stopped (pid : Nat) (signal : Nat) : List LogEvent × Effect :=
  ([LogEvent.stoppedEv pid signal], Effect.resume (TraceeResume.cont (some signal)))

/-- Embedding of `nix::sys::wait::WaitStatus` restricted to the seven variants the
dispatcher of `src/debugger.rs:51-59` matches on. -/
inductive WaitStatus where
  | Continued (pid : Nat)
  | Exited (pid : Nat) (code : Int)
  | PtraceEvent (pid : Nat) (signal : Nat) (event : Int)
  | PtraceSyscall (pid : Nat)
  | Signaled (pid : Nat) (signal : Nat) (core_dump : Bool)
  | StillAlive
  | Stopped (pid : Nat) (signal : Nat)
deriving DecidableEq, Repr

/-- One iteration of the `debugger_main` dispatch loop
(`src/debugger.rs:51-59`): route the wait-status to its handler.
`regs_info` is the `SyscallInfo` the syscall handler derives from the
tracee's registers (an external input). -/
def dispatch (status : WaitStatus) (regs_info : SyscallInfo) (st : List SyscallInfo) :
    Option StopOutcome :=
  match status with
  | WaitStatus.Continued pid => some ⟨(continued pid).1, st, (continued pid).2⟩
  | WaitStatus.Exited pid code => some ⟨(exited pid code).1, st, (exited pid code).2⟩
  | WaitStatus.PtraceEvent pid sig ev =>
    some ⟨(ptrace_event pid sig ev).1, st, (ptrace_event pid sig ev).2⟩
  | WaitStatus.PtraceSyscall pid => ptrace_syscall pid regs_info st
  | WaitStatus.Signaled pid sig cd => some ⟨(signaled pid sig cd).1, st, (signaled pid sig cd).2⟩
  | WaitStatus.StillAlive => some ⟨still_alive.1, st, still_alive.2⟩
  | WaitStatus.Stopped pid sig => some ⟨(stopped pid sig).1, st, (stopped pid sig).2⟩

/-- The syscall-stack update rule as the specification states it
(spec §4.4 / claim C2), written from the spec's words for comparison
with the source embedding: empty stack → push; non-empty with a
different top number → push; matching top number → pop, a pop that
yields nothing being a fatal abort (`none`). -/
def claim_stack_update (info : SyscallInfo) (st : List SyscallInfo) : Option (List SyscallInfo) :=
  match st with
  | [] => some [info]
  | top :: rest =>
    if top.number = info.number then some rest else some (info :: top :: rest)

/-- Iterate `ptrace_syscall` over a sequence of syscall-trace-stops
(each given by the `SyscallInfo` derived at that stop), threading the
syscall stack; `none` if any stop panics. -/
def run_stops : List SyscallInfo → List SyscallInfo → Option (List SyscallInfo)
  | [], st => some st
  | i :: rest, st =>
    match ptrace_syscall 0 i st with
    | some out => run_stops rest out.stack
    | none => none

/-- Written from the amended claim C6: the function list a successful
extraction must produce — every readable-named text symbol, in symbol
order, with no sentinel entries. -/
def fn_symbol_projection (syms : List ElfSymbol) : List FunctionInfo :=
  syms.filterMap fun s =>
    if s.kind = SymbolKind.Text then s.name.map (fun n => ⟨n, s.address⟩) else none

/-- Written from the amended claim C6: the variable list a successful
extraction must produce — every readable-named data symbol, in symbol
order, with no sentinel entries. -/
def var_symbol_projection (syms : List ElfSymbol) : List VariableInfo :=
  syms.filterMap fun s =>
    if s.kind = SymbolKind.Data then s.name.map (fun n => ⟨n, s.address⟩) else none

/-- A concrete executable mapping used by witnesses. -/
def mapA : MapRange := ⟨0x2000, 0x1000, 0, true, false, true⟩

/-- A concrete writable data mapping with a lower start, used by witnesses. -/
def mapB : MapRange := ⟨0x1000, 0x1000, 0x1000, true, true, false⟩

/-- The snapshot `TdbDebugInfo.init` builds from an empty symbol table
and the mappings `[mapA, mapB]`, used by witnesses. -/
def dAB : TdbDebugInfo := ⟨[], [], [mapA, mapB], init_base_addr [mapA, mapB]⟩

lemma U64_MOD_eq : U64_MOD = 18446744073709551616 := by norm_num [U64_MOD]

lemma u64_sub_of_le (a b : Nat) (hb : b ≤ a) (ha : a < U64_MOD) : u64_sub a b = a - b := by
  unfold u64_sub
  rw [U64_MOD_eq] at ha ⊢
  omega

lemma ptrace_syscall_nil (pid : Nat) (info : SyscallInfo) :
    ptrace_syscall pid info [] =
      some ⟨[LogEvent.syscallEnter pid info.number info.name], [info],
            Effect.resume (TraceeResume.cont none)⟩ := rfl

lemma ptrace_syscall_cons_ne (pid : Nat) (info top : SyscallInfo) (rest : List SyscallInfo)
    (h : top.number ≠ info.number) :
    ptrace_syscall pid info (top :: rest) =
      some ⟨[LogEvent.syscallEnter pid info.number info.name], info :: top :: rest,
            Effect.resume (TraceeResume.cont none)⟩ := by
  simp [ptrace_syscall, top_syscall_number_in_syscall_stack, push_syscall_stack, h]

lemma ptrace_syscall_cons_eq (pid : Nat) (info top : SyscallInfo) (rest : List SyscallInfo)
    (h : top.number = info.number) :
    ptrace_syscall pid info (top :: rest) =
      some ⟨[LogEvent.syscallExit top.name], rest,
            Effect.resume (TraceeResume.cont none)⟩ := by
  simp [ptrace_syscall, top_syscall_number_in_syscall_stack, pop_syscall_stack, h]

lemma run_stops_same_pair (i : SyscallInfo) (l : List SyscallInfo) :
    run_stops (i :: i :: l) [] = run_stops l [] := by
  simp [run_stops, ptrace_syscall_nil, ptrace_syscall_cons_eq 0 i i [] rfl]

/-- C1: for every syscall-trace-stop the handler succeeds (no panic on
this path) and requests resumption through `ptrace::cont(pid, None)` —
a free-run continuation, not the syscall-tracing resume
(`ptrace::syscall`) that the claim states.  This supports classifying
the claim as a code bug: the handler's own panic message reads
"ptrace::syscall failed", and the syscall-stack machinery only receives
further syscall-stops under a `ptrace::syscall` resume. -/
theorem ptrace_syscall_resumes_with_cont (pid : Nat) (info : SyscallInfo)
    (st : List SyscallInfo) :
    ∃ out, ptrace_syscall pid info st = some out ∧
      out.effect = Effect.resume (TraceeResume.cont none) := by
  cases st with
  | nil => exact ⟨_, ptrace_syscall_nil pid info, rfl⟩
  | cons top rest =>
    by_cases h : top.number = info.number
    · exact ⟨_, ptrace_syscall_cons_eq pid info top rest h, rfl⟩
    · exact ⟨_, ptrace_syscall_cons_ne pid info top rest h, rfl⟩

/-- C2: on each syscall-trace-stop the stack left behind by
`ptrace_syscall` follows exactly the claimed rule, stated by
`claim_stack_update` (written from the claim's words): empty stack →
push the derived `SyscallInfo`; non-empty with a top number different
from the current number → push; matching top number → pop, a pop
yielding nothing being a fatal abort. -/
theorem ptrace_syscall_stack_follows_rule (pid : Nat) (info : SyscallInfo)
    (st : List SyscallInfo) :
    (ptrace_syscall pid info st).map StopOutcome.stack = claim_stack_update info st := by
  cases st with
  | nil => rfl
  | cons top rest =>
    by_cases h : top.number = info.number
    · simp [ptrace_syscall_cons_eq pid info top rest h, claim_stack_update, h]
    · simp [ptrace_syscall_cons_ne pid info top rest h, claim_stack_update, h,
        push_syscall_stack]

/-- C3: from an empty stack, any number of repetitions of the same
syscall number leave the stack empty after each complete entry/exit
pair; and for the nested sequence A, B, B, A (with `B.number ≠
A.number`) the intermediate stacks are `[A]`, `[B, A]`, `[A]` — all
non-empty, of depth at most 2 — and only the final stop empties the
stack. -/
theorem syscall_stack_pairing (A B : SyscallInfo) (k : Nat)
    (h : B.number ≠ A.number) :
    run_stops (List.replicate (2 * k) A) [] = some []
    ∧ run_stops [A] [] = some [A]
    ∧ run_stops [A, B] [] = some [B, A]
    ∧ run_stops [A, B, B] [] = some [A]
    ∧ run_stops [A, B, B, A] [] = some [] := by
  refine ⟨?_, ?_, ?_, ?_, ?_⟩
  · induction k with
    | zero => rfl
    | succ n ih =>
      have h2 : 2 * (n + 1) = (2 * n) + 1 + 1 := by ring
      rw [h2, List.replicate_succ, List.replicate_succ, run_stops_same_pair, ih]
  · simp [run_stops, ptrace_syscall_nil]
  · simp [run_stops, ptrace_syscall_nil, ptrace_syscall_cons_ne 0 B A [] (fun hn => h hn.symm)]
  · simp [run_stops, ptrace_syscall_nil, ptrace_syscall_cons_ne 0 B A [] (fun hn => h hn.symm),
      ptrace_syscall_cons_eq 0 B B [A] rfl]
  · simp [run_stops, ptrace_syscall_nil, ptrace_syscall_cons_ne 0 B A [] (fun hn => h hn.symm),
      ptrace_syscall_cons_eq 0 B B [A] rfl, ptrace_syscall_cons_eq 0 A A [] rfl]

/-- Witness for C3 at concrete inputs: syscall numbers 0 ("read") and
1 ("write") with k = 2 pairs. -/
theorem syscall_stack_pairing_witness :
    (SyscallInfo.mk 1 "write").number ≠ (SyscallInfo.mk 0 "read").number
    ∧ (run_stops (List.replicate (2 * 2) ⟨0, "read"⟩) [] = some []
      ∧ run_stops [⟨0, "read"⟩] [] = some [⟨0, "read"⟩]
      ∧ run_stops [⟨0, "read"⟩, ⟨1, "write"⟩] [] = some [⟨1, "write"⟩, ⟨0, "read"⟩]
      ∧ run_stops [⟨0, "read"⟩, ⟨1, "write"⟩, ⟨1, "write"⟩] [] = some [⟨0, "read"⟩]
      ∧ run_stops [⟨0, "read"⟩, ⟨1, "write"⟩, ⟨1, "write"⟩, ⟨0, "read"⟩] [] = some []) :=
  ⟨by decide, syscall_stack_pairing ⟨0, "read"⟩ ⟨1, "write"⟩ 2 (by decide)⟩

/-- C9: an `Exited(pid, code)` wait-status makes the dispatcher request
termination of the debugger process with exactly that exit code, after
logging the event; the syscall stack is untouched. -/
theorem dispatch_exited_propagates_code (pid : Nat) (code : Int) (info : SyscallInfo)
    (st : List SyscallInfo) :
    dispatch (WaitStatus.Exited pid code) info st =
      some ⟨[LogEvent.exitedEv pid code], st, Effect.exitProcess code⟩ := rfl

lemma init_base_addr_loop_le (maps : List MapRange) (b : Nat) :
    init_base_addr_loop maps b ≤ b := by
  induction maps generalizing b with
  | nil => exact Nat.le_refl b
  | cons m rest ih =>
    refine (ih _).trans ?_
    split
    · exact Nat.le_of_lt (by assumption)
    · exact Nat.le_refl b

lemma init_base_addr_loop_le_start (maps : List MapRange) (b : Nat) :
    ∀ m ∈ maps, init_base_addr_loop maps b ≤ m.start := by
  induction maps generalizing b with
  | nil => intro m hm; cases hm
  | cons m rest ih =>
    intro m' hm'
    rcases List.mem_cons.mp hm' with h | h
    · subst h
      show init_base_addr_loop rest (if m'.start < b then m'.start else b) ≤ m'.start
      refine (init_base_addr_loop_le rest _).trans ?_
      split
      · exact Nat.le_refl _
      · exact Nat.le_of_not_lt (by assumption)
    · exact ih _ m' h

lemma init_base_addr_loop_mem_or (maps : List MapRange) (b : Nat) :
    init_base_addr_loop maps b = b ∨ ∃ m ∈ maps, init_base_addr_loop maps b = m.start := by
  induction maps generalizing b with
  | nil => exact Or.inl rfl
  | cons m rest ih =>
    have hstep : init_base_addr_loop (m :: rest) b
        = init_base_addr_loop rest (if m.start < b then m.start else b) := rfl
    rcases ih (if m.start < b then m.start else b) with h | ⟨m', hm', h⟩
    · by_cases hc : m.start < b
      · exact Or.inr ⟨m, List.mem_cons_self m rest, by rw [hstep, h, if_pos hc]⟩
      · exact Or.inl (by rw [hstep, h, if_neg hc])
    · exact Or.inr ⟨m', List.mem_cons_of_mem m hm', by rw [hstep, h]⟩

lemma init_base_addr_loop_append (l l' : List MapRange) (b : Nat) :
    init_base_addr_loop (l ++ l') b = init_base_addr_loop l' (init_base_addr_loop l b) := by
  induction l generalizing b with
  | nil => rfl
  | cons m rest ih => exact ih _

/-- C4: on a mapping starting at `B + δ` with file offset `F` and size
`S` (all in `u64` range), `is_included` translates a symbol offset `o`
to `o - δ` exactly when `o > δ` and leaves it unmodified otherwise —
in particular at `o = δ` — and returns `true` iff the translated offset
lies in `[F, F + S)`. -/
theorem is_included_translation (B δ F S o : Nat) (r w x : Bool) (nm : String)
    (hBδ : B + δ < U64_MOD) (hFS : F + S < U64_MOD) (ho : o < U64_MOD) :
    ((VariableInfo.mk nm o).is_included ⟨B + δ, S, F, r, w, x⟩ B = true
      ↔ F ≤ (if δ < o then o - δ else o) ∧ (if δ < o then o - δ else o) < F + S)
    ∧ (o ≤ δ → (if δ < o then o - δ else o) = o) := by
  have hbd : base_diff_of ⟨B + δ, S, F, r, w, x⟩ B = δ := by
    show u64_sub (B + δ) B = δ
    rw [u64_sub_of_le (B + δ) B (Nat.le_add_right B δ) hBδ]
    omega
  constructor
  · by_cases hcase : δ < o
    · have hsub : u64_sub o δ = o - δ := u64_sub_of_le o δ (Nat.le_of_lt hcase) ho
      simp [VariableInfo.is_included, hbd, hcase, hsub, Nat.mod_eq_of_lt hFS]
    · simp [VariableInfo.is_included, hbd, hcase, Nat.mod_eq_of_lt hFS]
  · intro hle
    simp [Nat.not_lt.mpr hle]

/-- Witness for C4 at concrete inputs: `B = 0x1000`, `δ = 0x200`,
`F = 0x100`, `S = 0x400`, `o = 0x250`. -/
theorem is_included_translation_witness :
    ((0x1000 + 0x200 < U64_MOD ∧ 0x100 + 0x400 < U64_MOD ∧ 0x250 < U64_MOD)
    ∧ ((VariableInfo.mk "x" 0x250).is_included ⟨0x1000 + 0x200, 0x400, 0x100, true, false, true⟩
          0x1000 = true
        ↔ 0x100 ≤ (if 0x200 < 0x250 then 0x250 - 0x200 else 0x250)
          ∧ (if 0x200 < 0x250 then 0x250 - 0x200 else 0x250) < 0x100 + 0x400)
    ∧ (0x250 ≤ 0x200 → (if 0x200 < 0x250 then 0x250 - 0x200 else 0x250) = 0x250)) :=
  ⟨by refine ⟨?_, ?_, ?_⟩ <;> decide,
    is_included_translation 0x1000 0x200 0x100 0x400 0x250 true false true "x"
      (by decide) (by decide) (by decide)⟩

/-- C5: the `base_addr` of a snapshot built by `TdbDebugInfo.init` over
a non-empty mapping list (of `u64` starts) is the minimum mapping start
address — it is attained by a mapping and bounds every mapping start —
and appending an additional mapping whose start is lower than all of
them makes that lower start the computed base. -/
theorem init_base_addr_is_min (syms : List ElfSymbol) (maps : List MapRange) (d : TdbDebugInfo)
    (hinit : TdbDebugInfo.init syms maps = some d) (hne : maps ≠ [])
    (hb : ∀ m ∈ maps, m.start < U64_MOD) :
    d.base_addr = init_base_addr maps
    ∧ (∃ m ∈ maps, init_base_addr maps = m.start)
    ∧ (∀ m ∈ maps, init_base_addr maps ≤ m.start)
    ∧ ∀ m', (∀ m ∈ maps, m'.start < m.start) →
        init_base_addr (maps ++ [m']) = m'.start := by
  have hle : ∀ m ∈ maps, init_base_addr maps ≤ m.start :=
    init_base_addr_loop_le_start maps (U64_MOD - 1)
  have hmem : ∃ m ∈ maps, init_base_addr maps = m.start := by
    rcases init_base_addr_loop_mem_or maps (U64_MOD - 1) with h | h
    · rcases List.exists_mem_of_ne_nil maps hne with ⟨m0, hm0⟩
      refine ⟨m0, hm0, ?_⟩
      have h1 : init_base_addr_loop maps (U64_MOD - 1) ≤ m0.start := hle m0 hm0
      have h2 := hb m0 hm0
      show init_base_addr_loop maps (U64_MOD - 1) = m0.start
      omega
    · exact h
  refine ⟨?_, hmem, hle, ?_⟩
  · simp only [TdbDebugInfo.init, Option.bind_eq_some] at hinit
    rcases hinit with ⟨fns, _, vars, _, hd⟩
    cases Option.some.inj hd
    rfl
  · intro m' hlt
    rcases hmem with ⟨m0, hm0, hbase⟩
    have hm' : m'.start < init_base_addr maps := hbase ▸ hlt m0 hm0
    show init_base_addr_loop (maps ++ [m']) (U64_MOD - 1) = m'.start
    rw [init_base_addr_loop_append]
    show init_base_addr_loop [m'] (init_base_addr maps) = m'.start
    simp [init_base_addr_loop, hm']

/-- Witness for C5 at concrete inputs: an empty symbol table and the
mappings `[mapA, mapB]` with starts `0x2000` and `0x1000`. -/
theorem init_base_addr_is_min_witness :
    (TdbDebugInfo.init [] [mapA, mapB] = some dAB
      ∧ [mapA, mapB] ≠ ([] : List MapRange)
      ∧ ∀ m ∈ [mapA, mapB], m.start < U64_MOD)
    ∧ (dAB.base_addr = init_base_addr [mapA, mapB]
      ∧ (∃ m ∈ [mapA, mapB], init_base_addr [mapA, mapB] = m.start)
      ∧ (∀ m ∈ [mapA, mapB], init_base_addr [mapA, mapB] ≤ m.start)
      ∧ ∀ m', (∀ m ∈ [mapA, mapB], m'.start < m.start) →
          init_base_addr ([mapA, mapB] ++ [m']) = m'.start) :=
  ⟨⟨rfl, by decide, by decide⟩,
    init_base_addr_is_min [] [mapA, mapB] dAB rfl (by decide) (by decide)⟩

/-- C10: the base delta `is_included` computes is the unguarded `u64`
subtraction `map.start - base_addr`: it equals the true difference
exactly under the precondition `base_addr ≤ map.start`, and wraps
around (differing from the true difference) whenever
`map.start < base_addr`; the precondition holds for every mapping of a
snapshot built by `init`, whose `base_addr` is the minimum mapping
start computed by `init_base_addr`. -/
theorem is_included_base_diff_precondition (map : MapRange) (ba : Nat)
    (h1 : map.start < U64_MOD) (h2 : ba < U64_MOD) :
    (ba ≤ map.start → base_diff_of map ba = map.start - ba)
    ∧ (map.start < ba →
        base_diff_of map ba = map.start + (U64_MOD - ba)
        ∧ base_diff_of map ba ≠ map.start - ba)
    ∧ ∀ maps, ∀ m ∈ maps, init_base_addr maps ≤ m.start := by
  refine ⟨?_, ?_, fun maps => init_base_addr_loop_le_start maps (U64_MOD - 1)⟩
  · intro hle
    exact u64_sub_of_le map.start ba hle h1
  · intro hlt
    unfold base_diff_of u64_sub
    rw [U64_MOD_eq] at h1 h2 ⊢
    omega

/-- Witness for C10 at concrete inputs: the mapping `mapB`
(start `0x1000`) against base address `0x1800` (above the start, so the
subtraction wraps). -/
theorem is_included_base_diff_precondition_witness :
    (mapB.start < U64_MOD ∧ 0x1800 < U64_MOD)
    ∧ ((0x1800 ≤ mapB.start → base_diff_of mapB 0x1800 = mapB.start - 0x1800)
      ∧ (mapB.start < 0x1800 →
          base_diff_of mapB 0x1800 = mapB.start + (U64_MOD - 0x1800)
          ∧ base_diff_of mapB 0x1800 ≠ mapB.start - 0x1800)
      ∧ ∀ maps, ∀ m ∈ maps, init_base_addr maps ≤ m.start) :=
  ⟨⟨by decide, by decide⟩,
    is_included_base_diff_precondition mapB 0x1800 (by decide) (by decide)⟩

lemma get_elf_fn_info_eq_none_iff (syms : List ElfSymbol) :
    get_elf_fn_info syms = none
      ↔ ∃ s ∈ syms, s.kind = SymbolKind.Text ∧ s.name = none := by
  induction syms with
  | nil => simp [get_elf_fn_info]
  | cons s rest ih =>
    by_cases hk : s.kind = SymbolKind.Text
    · cases hn : s.name with
      | none => simp [get_elf_fn_info, hk, hn]
      | some n => simp [get_elf_fn_info, hk, hn, ih]
    · simp [get_elf_fn_info, hk, ih]

lemma get_elf_var_info_eq_none_iff (syms : List ElfSymbol) :
    get_elf_var_info syms = none
      ↔ ∃ s ∈ syms, s.kind = SymbolKind.Data ∧ s.name = none := by
  induction syms with
  | nil => simp [get_elf_var_info]
  | cons s rest ih =>
    by_cases hk : s.kind = SymbolKind.Data
    · cases hn : s.name with
      | none => simp [get_elf_var_info, hk, hn]
      | some n => simp [get_elf_var_info, hk, hn, ih]
    · simp [get_elf_var_info, hk, ih]

lemma get_elf_fn_info_none_or_projection (syms : List ElfSymbol) :
    get_elf_fn_info syms = none
      ∨ get_elf_fn_info syms = some (fn_symbol_projection syms) := by
  induction syms with
  | nil => exact Or.inr rfl
  | cons s rest ih =>
    by_cases hk : s.kind = SymbolKind.Text
    · cases hn : s.name with
      | none => exact Or.inl (by simp [get_elf_fn_info, hk, hn])
      | some n =>
        rcases ih with h | h
        · exact Or.inl (by simp [get_elf_fn_info, hk, hn, h])
        · exact Or.inr (by
            simp [get_elf_fn_info, hk, hn, h, fn_symbol_projection, List.filterMap_cons])
    · rcases ih with h | h
      · exact Or.inl (by simp [get_elf_fn_info, hk, h])
      · exact Or.inr (by
          simp [get_elf_fn_info, hk, h, fn_symbol_projection, List.filterMap_cons])

lemma get_elf_var_info_none_or_projection (syms : List ElfSymbol) :
    get_elf_var_info syms = none
      ∨ get_elf_var_info syms = some (var_symbol_projection syms) := by
  induction syms with
  | nil => exact Or.inr rfl
  | cons s rest ih =>
    by_cases hk : s.kind = SymbolKind.Data
    · cases hn : s.name with
      | none => exact Or.inl (by simp [get_elf_var_info, hk, hn])
      | some n =>
        rcases ih with h | h
        · exact Or.inl (by simp [get_elf_var_info, hk, hn, h])
        · exact Or.inr (by
            simp [get_elf_var_info, hk, hn, h, var_symbol_projection, List.filterMap_cons])
    · rcases ih with h | h
      · exact Or.inl (by simp [get_elf_var_info, hk, h])
      · exact Or.inr (by
          simp [get_elf_var_info, hk, h, var_symbol_projection, List.filterMap_cons])

/-- C6 counterexample: on a symbol table whose single text (resp. data)
symbol has an unreadable name, extraction does not succeed with that
symbol dropped — it aborts (`none`), so the claim that "extraction
still succeeds" is false at this input. -/
theorem elf_extraction_unreadable_name_aborts :
    (get_elf_fn_info [⟨SymbolKind.Text, none, 0⟩] = none
      ∧ get_elf_var_info [⟨SymbolKind.Data, none, 0⟩] = none)
    ∧ ¬ ∃ l, get_elf_fn_info [⟨SymbolKind.Text, none, 0⟩] = some l :=
  ⟨⟨rfl, rfl⟩, fun ⟨_, hl⟩ => Option.noConfusion hl⟩

/-- C6 (amended): a symbol whose name cannot be read makes extraction
abort fatally — it is neither dropped nor replaced by a sentinel.
Extraction of the function (resp. variable) list returns `none` exactly
when some text (resp. data) symbol has an unreadable name, and any
successful result is exactly the readable-named text (resp. data)
symbols in order. -/
theorem elf_extraction_aborts_on_unreadable_name (syms : List ElfSymbol) :
    (get_elf_fn_info syms = none
      ↔ ∃ s ∈ syms, s.kind = SymbolKind.Text ∧ s.name = none)
    ∧ (get_elf_fn_info syms = none
      ∨ get_elf_fn_info syms = some (fn_symbol_projection syms))
    ∧ (get_elf_var_info syms = none
      ↔ ∃ s ∈ syms, s.kind = SymbolKind.Data ∧ s.name = none)
    ∧ (get_elf_var_info syms = none
      ∨ get_elf_var_info syms = some (var_symbol_projection syms)) :=
  ⟨get_elf_fn_info_eq_none_iff syms, get_elf_fn_info_none_or_projection syms,
    get_elf_var_info_eq_none_iff syms, get_elf_var_info_none_or_projection syms⟩

lemma collect_exec_maps_eq_filter (l : List MapRange) :
    collect_exec_maps l = l.filter fun m => m.is_read && !m.is_write && m.is_exec := by
  induction l with
  | nil => rfl
  | cons m rest ih => simp [collect_exec_maps, List.filter_cons, ih]

lemma collect_data_maps_eq_filter (l : List MapRange) :
    collect_data_maps l = l.filter fun m => m.is_read && m.is_write && !m.is_exec := by
  induction l with
  | nil => rfl
  | cons m rest ih => simp [collect_data_maps, List.filter_cons, ih]

lemma collect_rodata_maps_eq_filter (l : List MapRange) :
    collect_rodata_maps l = l.filter fun m => m.is_read && !m.is_write && !m.is_exec := by
  induction l with
  | nil => rfl
  | cons m rest ih => simp [collect_rodata_maps, List.filter_cons, ih]

/-- C7: each mapping query returns exactly the mappings with its
permission triple — `exec_maps` (read, not write, exec), `data_maps`
(read, write, not exec), `rodata_maps` (read, not write, not exec) — as
an order-preserving filter of the snapshot's list, and returns a
not-found error value (the `Except.error` branch, never a panic)
exactly when that filtered list is empty. -/
theorem perm_class_queries (d : TdbDebugInfo) :
    (d.exec_maps =
      if (d.mmap_info_vec.filter fun m => m.is_read && !m.is_write && m.is_exec).isEmpty
      then Except.error (ErrKind.notFound, "exec map not found")
      else Except.ok (d.mmap_info_vec.filter fun m => m.is_read && !m.is_write && m.is_exec))
    ∧ (d.data_maps =
      if (d.mmap_info_vec.filter fun m => m.is_read && m.is_write && !m.is_exec).isEmpty
      then Except.error (ErrKind.notFound, "exec map not found")
      else Except.ok (d.mmap_info_vec.filter fun m => m.is_read && m.is_write && !m.is_exec))
    ∧ (d.rodata_maps =
      if (d.mmap_info_vec.filter fun m => m.is_read && !m.is_write && !m.is_exec).isEmpty
      then Except.error (ErrKind.notFound, "rodata map not found")
      else Except.ok (d.mmap_info_vec.filter fun m => m.is_read && !m.is_write && !m.is_exec)) := by
  refine ⟨?_, ?_, ?_⟩
  · by_cases h : (d.mmap_info_vec.filter fun m => m.is_read && !m.is_write && m.is_exec) = []
    · simp [TdbDebugInfo.exec_maps, collect_exec_maps_eq_filter, h]
    · simp [TdbDebugInfo.exec_maps, collect_exec_maps_eq_filter, h]
  · by_cases h : (d.mmap_info_vec.filter fun m => m.is_read && m.is_write && !m.is_exec) = []
    · simp [TdbDebugInfo.data_maps, collect_data_maps_eq_filter, h]
    · simp [TdbDebugInfo.data_maps, collect_data_maps_eq_filter, h]
  · by_cases h : (d.mmap_info_vec.filter fun m => m.is_read && !m.is_write && !m.is_exec) = []
    · simp [TdbDebugInfo.rodata_maps, collect_rodata_maps_eq_filter, h]
    · simp [TdbDebugInfo.rodata_maps, collect_rodata_maps_eq_filter, h]

lemma find_breakpoint_offset_eq_find (l : List FunctionInfo) (nm : String) :
    find_breakpoint_offset l nm = (l.find? fun f => f.name == nm).map FunctionInfo.offset := by
  induction l with
  | nil => rfl
  | cons f rest ih =>
    by_cases hf : f.name = nm
    · rw [find_breakpoint_offset, if_pos hf, List.find?_cons_of_pos _ (by simp [hf])]
      rfl
    · rw [find_breakpoint_offset, if_neg hf, List.find?_cons_of_neg _ (by simp [hf]), ih]

/-- C8: `get_breakpoint_offset` is a linear lookup returning the offset
of the first function whose name equals the query — the `List.find?` of
the function list, first match winning when names repeat — and returns
`none` (an absent result, never a fatal error) exactly when no function
in the list has that name. -/
theorem breakpoint_offset_lookup (d : TdbDebugInfo) (nm : String) :
    d.get_breakpoint_offset nm
      = (d.fn_info_vec.find? fun f => f.name == nm).map FunctionInfo.offset
    ∧ (d.get_breakpoint_offset nm = none ↔ ∀ f ∈ d.fn_info_vec, f.name ≠ nm) := by
  refine ⟨find_breakpoint_offset_eq_find d.fn_info_vec nm, ?_⟩
  rw [TdbDebugInfo.get_breakpoint_offset, find_breakpoint_offset_eq_find]
  simp [List.find?_eq_none]
